import Mathlib

/-!
Verification of the bipartite motif counter `count_subgraphs` from
`bip_counter.py` (the Motif Counter of the dissertation repository).

The embedding works at two levels, both translated from the source:

* `BipGraph` is the graph after the index-normalization step of
  `count_subgraphs` (lines 28-43 of `bip_counter.py`): left ("user")
  nodes are the indices `0, ..., nU-1`, right ("object") nodes are the
  indices `0, ..., nO-1` (in the code they are the global ids
  `num_U, ..., num_U+num_O-1`; only the order matters).  On this level
  the arithmetic of lines 45-122 is embedded: the sparse co-occurrence
  matrices become functions on index pairs `(i, j)` with `i < j`, their
  elementwise operations become pointwise operations, and `.sum()`
  becomes a sum over all such pairs (entries outside a sparse matrix's
  support are zero, so summing over every pair agrees with summing the
  stored entries).  The Python arithmetic is float64/int64 on values
  whose exact integer ranges the spec assumes representable; it is
  embedded as exact `Int` arithmetic.
* `RawGraph` is the networkx graph as the caller hands it over: nodes
  with an optional `'bipartite'` attribute, plus an edge list.  On this
  level the argument handling of lines 28-43 and the destructive node
  removal of lines 97-106 are embedded, with the mutation of the input
  graph made explicit by returning the final graph state.
-/

/-- The bipartite graph after index normalization: `nU` left (user)
nodes `0..nU-1`, `nO` right (object) nodes `0..nO-1`, and the
adjacency predicate between a left index and a right index. -/
structure BipGraph where
  nU : Nat
  nO : Nat
  adj : Nat → Nat → Bool

namespace BipCounter

/-- Right-neighborhood of user `u` (the code's `B.neighbors(u)` for a
user node, as a set of object indices). -/
def nbrO (B : BipGraph) (u : Nat) : Finset Nat :=
  (Finset.range B.nO).filter (fun o => B.adj u o = true)

/-- Left-neighborhood of object `o` (the code's `B.neighbors(o)` for an
object node, as a set of user indices). -/
def nbrU (B : BipGraph) (o : Nat) : Finset Nat :=
  (Finset.range B.nU).filter (fun u => B.adj u o = true)

/-- User degrees, the code's `k_U` from `nx.bipartite.degrees` (line 45). -/
def k_U (B : BipGraph) (u : Nat) : Nat := (nbrO B u).card

/-- Object degrees, the code's `k_O` from `nx.bipartite.degrees` (line 45). -/
def k_O (B : BipGraph) (o : Nat) : Nat := (nbrU B o).card

/-- Index pairs `(o1, o2)` with `o1 < o2` over the object range: the
positions where the upper-triangular sparse matrix `pairs_O` of the
code can hold entries (the code emits `it.combinations` of each sorted
neighbor list, lines 50-57). -/
def oPairs (B : BipGraph) : Finset (Nat × Nat) :=
  ((Finset.range B.nO) ×ˢ (Finset.range B.nO)).filter (fun q => q.1 < q.2)

/-- Index pairs `(u1, u2)` with `u1 < u2` over the user range, the
positions of the code's sparse matrix `pairs_U` (lines 95-108). -/
def uPairs (B : BipGraph) : Finset (Nat × Nat) :=
  ((Finset.range B.nU) ×ˢ (Finset.range B.nU)).filter (fun q => q.1 < q.2)

/-- Entry `(o1, o2)` of the code's `pairs_O` matrix (lines 48-57):
each user adjacent to both objects contributes one `(o1, o2)`
coordinate, and the duplicate-summing COO-to-CSR conversion adds them
up, so the entry is the number of users adjacent to both `o1` and `o2`. -/
def pairs_O (B : BipGraph) (o1 o2 : Nat) : Nat :=
  ((Finset.range B.nU).filter (fun u => B.adj u o1 = true ∧ B.adj u o2 = true)).card

/-- Entry `(u1, u2)` of the code's `pairs_U` matrix (lines 95-108): the
number of objects adjacent to both `u1` and `u2`. -/
def pairs_U (B : BipGraph) (u1 u2 : Nat) : Nat :=
  ((Finset.range B.nO).filter (fun o => B.adj u1 o = true ∧ B.adj u2 o = true)).card

/-- The code's `matrix_numU` (line 61): value `num_U` at every nonzero
position of `pairs_O`, zero elsewhere. -/
def matrix_numU (B : BipGraph) (q : Nat × Nat) : Int :=
  if pairs_O B q.1 q.2 ≠ 0 then (B.nU : Int) else 0

/-- The code's `pairsO_ksum` (lines 62-63): `k_O[o1] + k_O[o2]` at every
nonzero position of `pairs_O`, zero elsewhere. -/
def pairsO_ksum (B : BipGraph) (q : Nat × Nat) : Int :=
  if pairs_O B q.1 q.2 ≠ 0 then ((k_O B q.1 : Int) + (k_O B q.2 : Int)) else 0

/-- The code's `pairs_O1` (lines 70-72): indicator of the positions
where `pairs_O` equals 1. -/
def pairs_O1 (B : BipGraph) (q : Nat × Nat) : Int :=
  if pairs_O B q.1 q.2 = 1 then 1 else 0

/-- The code's `pairs_O1_ksum` (lines 70-73): `k_O[o1] + k_O[o2]` at the
positions where `pairs_O` equals 1, zero elsewhere. -/
def pairs_O1_ksum (B : BipGraph) (q : Nat × Nat) : Int :=
  if pairs_O B q.1 q.2 = 1 then ((k_O B q.1 : Int) + (k_O B q.2 : Int)) else 0

/-- The code's `pairs_O_m1` (lines 80-84): `pairs_O - 1` at the
positions where `pairs_O > 1`, zero elsewhere. -/
def pairs_O_m1 (B : BipGraph) (q : Nat × Nat) : Int :=
  if 1 < pairs_O B q.1 q.2 then ((pairs_O B q.1 q.2 - 1 : Nat) : Int) else 0

/-- The code's `pairs_O_m2` (lines 80-85): `pairs_O - 2` at the
positions where `pairs_O > 1`, zero elsewhere. -/
def pairs_O_m2 (B : BipGraph) (q : Nat × Nat) : Int :=
  if 1 < pairs_O B q.1 q.2 then ((pairs_O B q.1 q.2 - 2 : Nat) : Int) else 0

/-- The code's `squares` matrix (line 88): elementwise
`pairs_O * pairs_O_m1 / 2` (the division is exact, `p*(p-1)` is even). -/
def squares (B : BipGraph) (q : Nat × Nat) : Int :=
  (pairs_O B q.1 q.2 : Int) * pairs_O_m1 B q / 2

/-- The code's `pairs_U_ksum` (lines 111-115): `k_U[u1] + k_U[u2]` at
the positions where `pairs_U > 1`, zero elsewhere. -/
def pairs_U_ksum (B : BipGraph) (q : Nat × Nat) : Int :=
  if 1 < pairs_U B q.1 q.2 then ((k_U B q.1 : Int) + (k_U B q.2 : Int)) else 0

/-- The code's `pairs_U_m1` (lines 111-116): `pairs_U - 1` at the
positions where `pairs_U > 1`, zero elsewhere. -/
def pairs_U_m1 (B : BipGraph) (q : Nat × Nat) : Int :=
  if 1 < pairs_U B q.1 q.2 then ((pairs_U B q.1 q.2 - 1 : Nat) : Int) else 0

/-- Line 66: `subgraphs[0] = pairs_O.sum()`. -/
def slot0 (B : BipGraph) : Int :=
  ∑ q ∈ oPairs B, (pairs_O B q.1 q.2 : Int)

/-- Line 119: `subgraphs[1] = pairs_U.sum()`. -/
def slot1 (B : BipGraph) : Int :=
  ∑ q ∈ uPairs B, (pairs_U B q.1 q.2 : Int)

/-- Line 67: `subgraphs[2] = (matrix_numU - (pairsO_ksum - pairs_O)).sum()`. -/
def slot2 (B : BipGraph) : Int :=
  ∑ q ∈ oPairs B, (matrix_numU B q - (pairsO_ksum B q - (pairs_O B q.1 q.2 : Int)))

/-- Line 76: `subgraphs[3] = (pairs_O1_ksum - (2*pairs_O1)).sum()`. -/
def slot3 (B : BipGraph) : Int :=
  ∑ q ∈ oPairs B, (pairs_O1_ksum B q - 2 * pairs_O1 B q)

/-- Line 89: `subgraphs[4] = squares.sum()`. -/
def slot4 (B : BipGraph) : Int :=
  ∑ q ∈ oPairs B, squares B q

/-- Line 90: `subgraphs[5] = (squares.multiply(pairsO_ksum - 2*pairs_O)).sum()`. -/
def slot5 (B : BipGraph) : Int :=
  ∑ q ∈ oPairs B, squares B q * (pairsO_ksum B q - 2 * (pairs_O B q.1 q.2 : Int))

/-- Line 122: `subgraphs[6] = (((pairs_U.multiply(pairs_U_m1))/2).multiply(pairs_U_ksum-2*pairs_U)).sum()`. -/
def slot6 (B : BipGraph) : Int :=
  ∑ q ∈ uPairs B,
    ((pairs_U B q.1 q.2 : Int) * pairs_U_m1 B q / 2) *
      (pairs_U_ksum B q - 2 * (pairs_U B q.1 q.2 : Int))

/-- Line 91: `subgraphs[7] = ((pairs_O.multiply(pairs_O_m1).multiply(pairs_O_m2))/6).sum()`. -/
def slot7 (B : BipGraph) : Int :=
  ∑ q ∈ oPairs B, (pairs_O B q.1 q.2 : Int) * pairs_O_m1 B q * pairs_O_m2 B q / 6

/-- The 8-slot vector assembled by `count_subgraphs` (lines 25-124) on
an index-normalized bipartite graph. -/
def count_subgraphs (B : BipGraph) : List Int :=
  [slot0 B, slot1 B, slot2 B, slot3 B, slot4 B, slot5 B, slot6 B, slot7 B]

/-- Brute-force oracle for slot 2, following the spec's exactness
property (§8): enumerate all node subsets `{o1, o2, u, u'}` with
`o1 < o2` whose induced subgraph is the `o-u-o u` motif, i.e. one user
adjacent to both objects (the wedge center) and the other adjacent to
neither (the extra unconnected user).  The two roles are determined by
the induced subgraph, so counting ordered (center, extra) user pairs
counts each qualifying node subset exactly once. -/
def bruteforce_slot2 (B : BipGraph) : Int :=
  (((oPairs B) ×ˢ ((Finset.range B.nU) ×ˢ (Finset.range B.nU))).filter
    (fun x => B.adj x.2.1 x.1.1 = true ∧ B.adj x.2.1 x.1.2 = true ∧
              B.adj x.2.2 x.1.1 = false ∧ B.adj x.2.2 x.1.2 = false)).card

/-- Brute-force oracle for slot 3, following the spec's exactness
property (§8): enumerate all node subsets `{o1, o2} ∪ {u1, u2}`
(`o1 < o2`, `u1 < u2`) whose induced subgraph is a path of length 3
(`o-u-o-u`), i.e. exactly 3 of the 4 possible cross edges are present
(4 edges would be the 4-cycle, fewer than 3 is disconnected or a
smaller pattern). -/
def bruteforce_slot3 (B : BipGraph) : Int :=
  (((oPairs B) ×ˢ (uPairs B)).filter
    (fun x =>
      (if B.adj x.2.1 x.1.1 = true then 1 else 0) +
      (if B.adj x.2.1 x.1.2 = true then 1 else 0) +
      (if B.adj x.2.2 x.1.1 = true then 1 else 0) +
      (if B.adj x.2.2 x.1.2 = true then 1 else 0) = 3)).card

/-- A 7-node bipartite graph (4 users, 3 objects): users 0 and 1 are
adjacent to objects 0 and 1, user 2 is adjacent to objects 1 and 2,
and user 3 is isolated. -/
def G0 : BipGraph :=
  ⟨4, 3, fun u o => decide ((u, o) ∈ [(0, 0), (0, 1), (1, 0), (1, 1), (2, 1), (2, 2)])⟩

/-- The complete bipartite graph on 3 users and 2 objects. -/
def Gc7 : BipGraph := ⟨3, 2, fun u o => decide (u < 3 ∧ o < 2)⟩

/-- A bipartite graph on 2 users and 2 objects with the single edge
between user 0 and object 0. -/
def Gc8 : BipGraph := ⟨2, 2, fun u o => decide (u = 0 ∧ o = 0)⟩

/-- The graph obtained by adding the edge between user `u0` and object
`o0` (networkx `add_edge` on an index-normalized bipartite graph). -/
def addEdge (B : BipGraph) (u0 o0 : Nat) : BipGraph :=
  ⟨B.nU, B.nO, fun u o => B.adj u o || (decide (u = u0) && decide (o = o0))⟩

/-- The two values of the `'bipartite'` node attribute the code reads
and writes (it accepts `0`/`'u'` for users and `1`/`'o'` for objects,
and writes `'u'`/`'o'`). -/
inductive BipLabel
  | u
  | o
deriving DecidableEq

/-- The Python exceptions the argument handling of `count_subgraphs`
can raise: `KeyError` from reading `d['bipartite']` on a node without
the attribute (lines 29-30) — the spec's `ConfigurationError` — and
`TypeError` from `len(None)`/`zip(None, ...)` when exactly one node
list is supplied (lines 32-33). -/
inductive PyExc
  | keyError
  | typeError
deriving DecidableEq

/-- The networkx graph as the caller hands it to `count_subgraphs`:
nodes carrying an optional `'bipartite'` attribute, and an edge list. -/
structure RawGraph where
  nodes : List (Nat × Option BipLabel)
  edges : List (Nat × Nat)
deriving DecidableEq

/-- The code's `nx.set_node_attributes(B, 'bipartite', dict(zip(ns, [lbl]*len(ns))))`
(lines 32-33): every listed node present in the graph gets the label. -/
def setLabels (g : RawGraph) (ns : List Nat) (lbl : BipLabel) : RawGraph :=
  ⟨g.nodes.map (fun nd => if nd.1 ∈ ns then (nd.1, some lbl) else nd), g.edges⟩

/-- The relabeling map of line 40, `dict(zip(nodes_U+nodes_O, np.arange(num_U+num_O)))`:
a node in the concatenated list goes to its position, any other node
keeps its label (networkx `relabel_nodes` leaves unmapped nodes alone). -/
def relabelId (us os : List Nat) (x : Nat) : Nat :=
  if x ∈ us ++ os then (us ++ os).indexOf x else x

/-- The code's `nx.relabel_nodes(B, ..., copy=False)` (line 40) applied
to nodes and edges. -/
def relabelGraph (g : RawGraph) (us os : List Nat) : RawGraph :=
  ⟨g.nodes.map (fun nd => (relabelId us os nd.1, nd.2)),
   g.edges.map (fun e => (relabelId us os e.1, relabelId us os e.2))⟩

/-- networkx node removal for a list of nodes: the nodes disappear and
so does every edge incident to one of them (the code removes each
object node in the loop of lines 97-105). -/
def removeNodesFrom (g : RawGraph) (ns : List Nat) : RawGraph :=
  ⟨g.nodes.filter (fun nd => decide (nd.1 ∉ ns)),
   g.edges.filter (fun e => decide (e.1 ∉ ns) && decide (e.2 ∉ ns))⟩

/-- The code's `B.remove_nodes_from(B.nodes())` (line 106): every node
still in the graph is removed. -/
def remove_nodes_from_all (g : RawGraph) : RawGraph :=
  removeNodesFrom g (g.nodes.map Prod.fst)

/-- The net effect of the call on the caller's graph object: in-place
relabeling (line 40), removal of every object node `num_U, ...,
num_U+num_O-1` inside the loop of lines 97-105, then
`B.remove_nodes_from(B.nodes())` (line 106). -/
def consumeGraph (g : RawGraph) (us os : List Nat) : RawGraph :=
  remove_nodes_from_all
    (removeNodesFrom (relabelGraph g us os) (List.range' us.length os.length))

/-- The index-normalized bipartite graph the arithmetic of the call
runs on: user index `i` stands for the node `us[i]`, object index `j`
for `os[j]`, adjacent when the caller's graph has the edge between them
(in either orientation, the graph being undirected). -/
def toBip (g : RawGraph) (us os : List Nat) : BipGraph :=
  ⟨us.length, os.length, fun i j =>
    decide ((us.getD i 0, os.getD j 0) ∈ g.edges) ||
      decide ((os.getD j 0, us.getD i 0) ∈ g.edges)⟩

/-- The body of `count_subgraphs` once the node lists are resolved:
the 8-slot vector, paired with the final state of the caller's graph. -/
def count_subgraphs_run (g : RawGraph) (us os : List Nat) : List Int × RawGraph :=
  (count_subgraphs (toBip g us os), consumeGraph g us os)

/-- The full `count_subgraphs` call including the argument handling of
lines 28-33: with both lists omitted the partition is inferred from the
`'bipartite'` attribute (a node without it raises `KeyError`, the
spec's `ConfigurationError`); with both lists supplied the listed nodes
are labeled; with exactly one list supplied, `len(None)` raises
`TypeError`.  On success the vector is returned together with the final
state of the caller's (mutated) graph. -/
def count_subgraphs_full (g : RawGraph) :
    Option (List Nat) → Option (List Nat) → Except PyExc (List Int × RawGraph)
  | none, none =>
    if g.nodes.any (fun nd => nd.2.isNone) then .error .keyError
    else
      .ok (count_subgraphs_run g
        ((g.nodes.filter (fun nd => decide (nd.2 = some BipLabel.u))).map Prod.fst)
        ((g.nodes.filter (fun nd => decide (nd.2 = some BipLabel.o))).map Prod.fst))
  | some us, some os =>
    .ok (count_subgraphs_run (setLabels (setLabels g us BipLabel.u) os BipLabel.o) us os)
  | _, _ => .error .typeError

/-- A caller graph with one labeled user node, one labeled object node
and the edge between them. -/
def Graw : RawGraph := ⟨[(0, some BipLabel.u), (1, some BipLabel.o)], [(0, 1)]⟩

/-- Number of strictly increasing pairs drawn from a finite set of
naturals: choosing such a pair is choosing a 2-element subset. -/
lemma card_filter_lt_product (S : Finset Nat) :
    ((S ×ˢ S).filter (fun p => p.1 < p.2)).card = S.card.choose 2 := by
  rw [← Finset.card_powersetCard 2 S]
  apply Finset.card_bij (fun p _ => ({p.1, p.2} : Finset Nat))
  · intro p hp
    simp only [Finset.mem_filter, Finset.mem_product] at hp
    rw [Finset.mem_powersetCard]
    exact ⟨by simp [Finset.insert_subset_iff, hp.1.1, hp.1.2],
      Finset.card_pair hp.2.ne⟩
  · intro p hp q hq hpq
    simp only [Finset.mem_filter, Finset.mem_product] at hp hq
    have h1 : p.1 ∈ ({q.1, q.2} : Finset Nat) := by rw [← hpq]; simp
    have h2 : p.2 ∈ ({q.1, q.2} : Finset Nat) := by rw [← hpq]; simp
    have h3 : q.1 ∈ ({p.1, p.2} : Finset Nat) := by rw [hpq]; simp
    have h4 : q.2 ∈ ({p.1, p.2} : Finset Nat) := by rw [hpq]; simp
    simp only [Finset.mem_insert, Finset.mem_singleton] at h1 h2 h3 h4
    have hp2 := hp.2
    have hq2 := hq.2
    have : p.1 = q.1 ∧ p.2 = q.2 := by omega
    exact Prod.ext this.1 this.2
  · intro t ht
    rw [Finset.mem_powersetCard] at ht
    obtain ⟨a, b, hne, rfl⟩ := Finset.card_eq_two.mp ht.2
    have ha : a ∈ S := ht.1 (by simp)
    have hb : b ∈ S := ht.1 (by simp)
    rcases hne.lt_or_lt with h | h
    · exact ⟨(a, b), by simp [Finset.mem_filter, Finset.mem_product, ha, hb, h], rfl⟩
    · exact ⟨(b, a), by simp [Finset.mem_filter, Finset.mem_product, ha, hb, h],
        by rw [Finset.pair_comm]⟩

/-- Double counting for slot 0: summing the `pairs_O` co-occurrence
entries over all object pairs equals summing `C(k_U(u), 2)` over all
users (each user with degree `k` contributes `C(k, 2)` object pairs in
the build loop of lines 50-57). -/
lemma sum_pairs_O_eq_sum_choose (B : BipGraph) :
    ∑ q ∈ oPairs B, pairs_O B q.1 q.2 =
      ∑ u ∈ Finset.range B.nU, (k_U B u).choose 2 := by
  have h1 : ∀ q ∈ oPairs B, pairs_O B q.1 q.2 =
      ∑ u ∈ Finset.range B.nU,
        if B.adj u q.1 = true ∧ B.adj u q.2 = true then 1 else 0 := fun q _ =>
    Finset.card_filter _ _
  rw [Finset.sum_congr rfl h1, Finset.sum_comm]
  refine Finset.sum_congr rfl fun u _ => ?_
  rw [← Finset.card_filter]
  have h2 : (oPairs B).filter (fun q => B.adj u q.1 = true ∧ B.adj u q.2 = true)
      = ((nbrO B u) ×ˢ (nbrO B u)).filter (fun q => q.1 < q.2) := by
    ext q
    simp only [oPairs, nbrO, Finset.mem_filter, Finset.mem_product, Finset.mem_range]
    tauto
  rw [h2, card_filter_lt_product]
  rfl

/-- The claim states the divergence witness for C1: on the 7-node
graph `G0` the returned vector's slot 2 is 2 and slot 3 is 2, while
brute-force enumeration of the corresponding motifs over node subsets
yields 3 and 4: `count_subgraphs` is not exact on all graphs up to ~12
nodes. -/
theorem C1_divergence :
    (count_subgraphs G0).getD 2 0 = 2 ∧ bruteforce_slot2 G0 = 3 ∧
    (count_subgraphs G0).getD 3 0 = 2 ∧ bruteforce_slot3 G0 = 4 := by
  decide

/-- C3: slot 0 of the vector returned by `count_subgraphs` equals the
total number of right-left-right wedges, i.e. the sum of
`C(degree(u), 2)` over the users `u` of degree at least 2, and also
equals the sum of all entries of the right-right co-occurrence matrix. -/
theorem C3_slot0_wedges (B : BipGraph) :
    ((count_subgraphs B).getD 0 0 =
      ∑ u ∈ (Finset.range B.nU).filter (fun u => 2 ≤ k_U B u),
        ((k_U B u).choose 2 : Int)) ∧
    (count_subgraphs B).getD 0 0 = ∑ q ∈ oPairs B, (pairs_O B q.1 q.2 : Int) := by
  constructor
  · show slot0 B = _
    have hfilter :
        ∑ u ∈ (Finset.range B.nU).filter (fun u => 2 ≤ k_U B u),
            ((k_U B u).choose 2 : Int)
          = ∑ u ∈ Finset.range B.nU, ((k_U B u).choose 2 : Int) := by
      apply Finset.sum_filter_of_ne
      intro u _ hne
      by_contra hlt
      push_neg at hlt
      exact hne (by rw [Nat.choose_eq_zero_of_lt hlt]; rfl)
    rw [hfilter]
    unfold slot0
    rw [← Nat.cast_sum, sum_pairs_O_eq_sum_choose, Nat.cast_sum]
  · rfl

/-- C8: slot 0 is non-decreasing when an edge between an existing user
and an existing object is added to the graph. -/
theorem C8_slot0_monotone (B : BipGraph) (u0 o0 : Nat)
    (hu : u0 < B.nU) (ho : o0 < B.nO) :
    (count_subgraphs B).getD 0 0 ≤ (count_subgraphs (addEdge B u0 o0)).getD 0 0 := by
  show slot0 B ≤ slot0 (addEdge B u0 o0)
  unfold slot0
  have hO : oPairs (addEdge B u0 o0) = oPairs B := rfl
  rw [hO]
  apply Finset.sum_le_sum
  intro q _
  have hmono : pairs_O B q.1 q.2 ≤ pairs_O (addEdge B u0 o0) q.1 q.2 := by
    apply Finset.card_le_card
    intro x hx
    simp only [Finset.mem_filter, Finset.mem_range, addEdge, Bool.or_eq_true] at hx ⊢
    exact ⟨hx.1, Or.inl hx.2.1, Or.inl hx.2.2⟩
  exact_mod_cast hmono

/-- Witness for C8 at a concrete graph: adding the edge (1, 1) to the
single-edge graph `Gc8` does not decrease slot 0. -/
theorem C8_witness :
    1 < Gc8.nU ∧ 1 < Gc8.nO ∧
      (count_subgraphs Gc8).getD 0 0 ≤ (count_subgraphs (addEdge Gc8 1 1)).getD 0 0 :=
  ⟨by decide, by decide, C8_slot0_monotone Gc8 1 1 (by decide) (by decide)⟩

/-- C4: slot 2 of the vector returned by `count_subgraphs` equals the
sum, over the nonzero entries `(o1, o2)` of value `p` of the
right-right co-occurrence matrix, of `n_L - (K(o1) + K(o2) - p)`. -/
theorem C4_slot2_formula (B : BipGraph) :
    (count_subgraphs B).getD 2 0 =
      ∑ q ∈ (oPairs B).filter (fun q => pairs_O B q.1 q.2 ≠ 0),
        ((B.nU : Int) - (((k_O B q.1 : Int) + (k_O B q.2 : Int)) -
          (pairs_O B q.1 q.2 : Int))) := by
  show slot2 B = _
  rw [Finset.sum_filter]
  unfold slot2
  refine Finset.sum_congr rfl fun q _ => ?_
  by_cases hq : pairs_O B q.1 q.2 = 0 <;>
    simp [matrix_numU, pairsO_ksum, hq]

/-- C5: slot 3 of the vector returned by `count_subgraphs` equals the
sum of `K(o1) + K(o2) - 2` taken only over the co-occurrence entries of
value exactly 1; entries with value at least 2 contribute nothing. -/
theorem C5_slot3_formula (B : BipGraph) :
    (count_subgraphs B).getD 3 0 =
      ∑ q ∈ (oPairs B).filter (fun q => pairs_O B q.1 q.2 = 1),
        (((k_O B q.1 : Int) + (k_O B q.2 : Int)) - 2) := by
  show slot3 B = _
  rw [Finset.sum_filter]
  unfold slot3
  refine Finset.sum_congr rfl fun q _ => ?_
  by_cases hq : pairs_O B q.1 q.2 = 1 <;>
    simp [pairs_O1, pairs_O1_ksum, hq]

/-- C6: slot 4 of the vector returned by `count_subgraphs` equals the
exact integer sum of `C(p, 2)` over the entries `p` of the right-right
co-occurrence matrix: each pair of objects sharing `p` users
contributes `p(p-1)/2` squares. -/
theorem C6_slot4_squares (B : BipGraph) :
    (count_subgraphs B).getD 4 0 =
      ∑ q ∈ oPairs B, ((pairs_O B q.1 q.2).choose 2 : Int) := by
  show slot4 B = _
  unfold slot4
  refine Finset.sum_congr rfl fun q _ => ?_
  by_cases hq : 1 < pairs_O B q.1 q.2
  · rw [squares, pairs_O_m1, if_pos hq, Nat.choose_two_right, ← Nat.cast_mul,
      Int.natCast_div]
    rfl
  · have h0 : (pairs_O B q.1 q.2).choose 2 = 0 :=
      Nat.choose_eq_zero_of_lt (by omega)
    simp [squares, pairs_O_m1, hq, h0]

/-- C7: slot 7 of the vector returned by `count_subgraphs` is strictly
positive only if some object pair shares at least 3 users (every
summand `p(p-1)(p-2)/6` of slot 7 vanishes when `p ≤ 2`). -/
theorem C7_slot7_pos (B : BipGraph)
    (h : 0 < (count_subgraphs B).getD 7 0) :
    ∃ o1 o2, o1 < B.nO ∧ o2 < B.nO ∧ o1 < o2 ∧ 3 ≤ pairs_O B o1 o2 := by
  by_contra hc
  push_neg at hc
  have hz : slot7 B = 0 := by
    refine Finset.sum_eq_zero fun q hq => ?_
    have hmem : (q.1 < B.nO ∧ q.2 < B.nO) ∧ q.1 < q.2 := by
      simpa only [oPairs, Finset.mem_filter, Finset.mem_product,
        Finset.mem_range] using hq
    have hp : pairs_O B q.1 q.2 < 3 :=
      hc q.1 q.2 hmem.1.1 hmem.1.2 hmem.2
    have hcases : pairs_O B q.1 q.2 = 0 ∨ pairs_O B q.1 q.2 = 1 ∨
        pairs_O B q.1 q.2 = 2 := by omega
    rcases hcases with h | h | h <;>
      simp [pairs_O_m1, pairs_O_m2, h]
  have : (count_subgraphs B).getD 7 0 = 0 := hz
  omega

/-- Witness for C7: on the complete bipartite graph `Gc7` (3 users, 2
objects) slot 7 is positive, and the theorem produces an object pair
sharing at least 3 users. -/
theorem C7_witness :
    0 < (count_subgraphs Gc7).getD 7 0 ∧
      ∃ o1 o2, o1 < Gc7.nO ∧ o2 < Gc7.nO ∧ o1 < o2 ∧ 3 ≤ pairs_O Gc7 o1 o2 :=
  ⟨by decide, C7_slot7_pos Gc7 (by decide)⟩


/-- Removing every node of a graph leaves no node behind. -/
lemma remove_all_nodes_nil (g : RawGraph) :
    (remove_nodes_from_all g).nodes = [] := by
  simp only [remove_nodes_from_all, removeNodesFrom]
  rw [List.filter_eq_nil_iff]
  intro nd hnd
  simp only [decide_eq_true_eq, Decidable.not_not]
  exact List.mem_map_of_mem Prod.fst hnd

/-- C9: every successful call consumes the caller's graph: the final
graph state returned alongside the vector contains no nodes, so the
graph is not reusable. -/
theorem C9_graph_consumed (g : RawGraph) (uArg oArg : Option (List Nat))
    (v : List Int) (g' : RawGraph)
    (h : count_subgraphs_full g uArg oArg = .ok (v, g')) :
    g'.nodes = [] := by
  have hfin : ∀ g0 us os, count_subgraphs_run g0 us os = (v, g') → g'.nodes = [] := by
    intro g0 us os hrun
    have hg : consumeGraph g0 us os = g' := congrArg Prod.snd hrun
    rw [← hg]
    exact remove_all_nodes_nil _
  cases uArg with
  | none =>
    cases oArg with
    | none =>
      simp only [count_subgraphs_full] at h
      split at h
      · exact Except.noConfusion h
      · exact hfin _ _ _ (Except.ok.inj h)
    | some os =>
      rw [show count_subgraphs_full g none (some os) = .error .typeError from rfl] at h
      exact Except.noConfusion h
  | some us =>
    cases oArg with
    | none =>
      rw [show count_subgraphs_full g (some us) none = .error .typeError from rfl] at h
      exact Except.noConfusion h
    | some os =>
      simp only [count_subgraphs_full] at h
      exact hfin _ _ _ (Except.ok.inj h)


/-- Witness for C9: the call on `Graw` with inferred partition succeeds
and leaves the caller's graph without nodes. -/
theorem C9_witness :
    count_subgraphs_full Graw none none =
        .ok ([0, 0, 0, 0, 0, 0, 0, 0], (⟨[], []⟩ : RawGraph)) ∧
      (⟨[], []⟩ : RawGraph).nodes = [] :=
  ⟨by rfl,
    C9_graph_consumed Graw none none [0, 0, 0, 0, 0, 0, 0, 0] ⟨[], []⟩ (by rfl)⟩

/-- Counterexample to C2 as stated: the empty graph carries no
per-node class label, yet the call with both node lists omitted does
not fail — it returns the all-zero vector (and the empty final graph). -/
theorem C2_counterexample :
    count_subgraphs_full ⟨[], []⟩ none none =
      .ok ([0, 0, 0, 0, 0, 0, 0, 0], (⟨[], []⟩ : RawGraph)) := by
  rfl

/-- C2 amended: when both node lists are omitted, the graph has at
least one node and no node carries a class label, the call fails with
`KeyError` (the spec's `ConfigurationError`) and returns no vector. -/
theorem C2_amended (g : RawGraph) (h1 : g.nodes ≠ [])
    (h2 : ∀ nd ∈ g.nodes, nd.2 = none) :
    count_subgraphs_full g none none = .error .keyError := by
  simp only [count_subgraphs_full]
  rw [if_pos]
  obtain ⟨nd, hnd⟩ := List.exists_mem_of_ne_nil _ h1
  rw [List.any_eq_true]
  exact ⟨nd, hnd, by rw [h2 nd hnd]; rfl⟩

/-- Witness for the amended C2: a single unlabeled node makes the call
fail with `KeyError`. -/
theorem C2_amended_witness :
    count_subgraphs_full ⟨[(5, none)], []⟩ none none = .error .keyError :=
  C2_amended ⟨[(5, none)], []⟩ (by decide) (by decide)

/-- C10: supplying exactly one of the two node lists raises an
exception (`TypeError` from measuring the `None` argument) and returns
no vector, whatever the graph and its labels are — the missing side is
never inferred. -/
theorem C10_one_sided_args (g : RawGraph) (us os : List Nat) :
    count_subgraphs_full g (some us) none = .error .typeError ∧
      count_subgraphs_full g none (some os) = .error .typeError :=
  ⟨rfl, rfl⟩

end BipCounter
